import Mathlib

/-!
Shallow embedding of the gloo-remote-auth-plugin core
(src/plugins/remote_auth/pkg/impl.go, with the older variant in
src/unnamed/part_000 embedded where a claim cites it).

Modelling conventions:
- Go maps (`map[string]string`, `map[string]bool`) are association lists
  with first-match lookup; Go map iteration visits each (unique) key once,
  which an association list with distinct keys reproduces.
- JSON-decoded dynamic values (`interface{}`) are the inductive `GoValue`,
  one constructor per `reflect.Kind` group that `stringifyValue` switches
  on (Bool / Int kinds / Uint kinds / Float kinds / String / Slice-Array),
  plus `object` (reflect.Map) and `null` (reflect.Invalid), which fall to
  the `default` branch.  Go formats a float with `%v`; the embedding
  carries that printed decimal form abstractly as the `float` payload,
  since no claim depends on a particular float rendering.
- The network is an oracle: `httpClient.Do` becomes a function from the
  outbound forwarded headers to a `HttpDoResult`; the response body is
  carried already classified as malformed JSON or a decoded string-keyed
  object, which is exactly the distinction `json.Decoder.Decode` into
  `map[string]interface{}` makes.
- Logging is side-effect free and omitted; `extractRequestId` is kept
  because its result is bound in `Authorize` (it feeds only the logger).
-/

/-- A dynamically-typed value as produced by decoding JSON into
`map[string]interface{}` in Go, shaped after the `reflect.Kind` switch in
`stringifyValue`.  (Go's switch omits `reflect.Int16`/`Uint16`, but no
JSON-decoded value has those kinds, so `int`/`uint` cover the listed
integer kinds.) -/
inductive GoValue : Type where
  | bool (b : Bool)
  | int (n : Int)
  | uint (n : Nat)
  | float (repr : String)
  | str (s : String)
  | slice (elems : List GoValue)
  | object (fields : List (String × GoValue))
  | null

/-- First-match lookup in an association list: the Go map access
`m[key]` with its `(value, ok)` result. -/
def assocLookup {β : Type} : List (String × β) → String → Option β
  | [], _ => none
  | (k, v) :: rest, key => if k = key then some v else assocLookup rest key

mutual

/-- `stringifyValue` from impl.go: switch on the reflect.Kind of the raw
value; scalars print with `%v`, slices/arrays collect the stringifications
of their elements that succeed and join them with `","`; any other kind
(map, invalid/nil, ...) returns nil, modelled as `none`. -/
def stringifyValue : GoValue → Option String
  | .bool b => some (if b then "true" else "false")
  | .int n => some (toString n)
  | .uint n => some (toString n)
  | .float repr => some repr
  | .str s => some s
  | .slice elems => some (String.intercalate "," (stringifySlice elems))
  | .object _ => none
  | .null => none

/-- The slice loop body of `stringifyValue`: `arr` accumulates `*s` for
each element whose recursive stringification is non-nil. -/
def stringifySlice : List GoValue → List String
  | [] => []
  | x :: xs =>
    match stringifyValue x with
    | some s => s :: stringifySlice xs
    | none => stringifySlice xs

end

/-- The loop of `extractResponseHeaders` over the attribute→header map
(`extractHeaders(data, attr)` in the repository's test): for each entry,
if the attribute is a key of the decoded body and its value stringifies,
append a `(header, value)` pair. -/
def extractHeaders (data : List (String × GoValue)) :
    List (String × String) → List (String × String)
  | [] => []
  | (attrName, header) :: rest =>
    match assocLookup data attrName with
    | some raw =>
      match stringifyValue raw with
      | some value => (header, value) :: extractHeaders data rest
      | none => extractHeaders data rest
    | none => extractHeaders data rest

/-- Error taxonomy of one `Authorize` call: a failed
`httpClient.Do` (transport) or a failed `json.Decoder.Decode` of a 200
response body. -/
inductive AuthError : Type where
  | transportError
  | decodeError
  deriving DecidableEq, Repr

/-- The response body of the remote authorizer as `json.Decoder.Decode`
into `map[string]interface{}` classifies it: either decoding fails
(malformed JSON, or JSON that is not a string-keyed object), or it yields
a decoded field map. -/
inductive AuthzBody : Type where
  | malformed
  | object (fields : List (String × GoValue))

/-- `extractResponseHeaders(authzBody, attributesToHeadersMap)` from
impl.go: decode the body (decode failure propagates as an error), then run
the extraction loop over the attribute→header map. -/
def extractResponseHeaders (authzBody : AuthzBody)
    (attributesToHeadersMap : List (String × String)) :
    Except AuthError (List (String × String)) :=
  match authzBody with
  | .malformed => .error .decodeError
  | .object data => .ok (extractHeaders data attributesToHeadersMap)

/-- Plugin configuration (impl.go `Config`). `ResponseHeaders` is a Go
string→string map, kept as an association list. -/
structure Config : Type where
  AuthUrl : String
  ForwardRequestHeaders : List String
  RequestIdHeader : String
  ResponseHeaders : List (String × String)
  deriving DecidableEq, Repr

/-- The service state built by `GetAuthService` (impl.go
`RemoteAuthService`); the `http.Client` is external and not part of the
state. `ForwardRequestHeaders` is the Go `map[string]bool`. -/
structure RemoteAuthService : Type where
  AuthUrl : String
  ForwardRequestHeaders : List (String × Bool)
  AttributesToHeadersMap : List (String × String)
  RequestIdHeader : String
  deriving DecidableEq, Repr

/-- `GetAuthService` from impl.go: build the forward-headers map with
`true` for every configured name, and take `config.ResponseHeaders`
directly as `AttributesToHeadersMap`. -/
def GetAuthService (config : Config) : RemoteAuthService :=
  { AuthUrl := config.AuthUrl
    ForwardRequestHeaders := config.ForwardRequestHeaders.map fun v => (v, true)
    AttributesToHeadersMap := config.ResponseHeaders
    RequestIdHeader := config.RequestIdHeader }

/-- `forwardAllowedHeaders` from impl.go: for each key of the
forward-headers map whose value is true, attach the inbound header of
that exact (case-sensitive) name when present.  Returns the header list
added to the outbound request. -/
def forwardAllowedHeaders (c : RemoteAuthService)
    (headers : List (String × String)) : List (String × String) :=
  c.ForwardRequestHeaders.filterMap fun p =>
    if p.2 then (assocLookup headers p.1).map fun value => (p.1, value)
    else none

/-- `extractRequestId` from impl.go: empty configured header name means
disabled; otherwise look the configured name up in the inbound headers. -/
def extractRequestId (c : RemoteAuthService)
    (headers : List (String × String)) : Option String :=
  if c.RequestIdHeader = "" then none
  else assocLookup headers c.RequestIdHeader

/-- Outcome of `httpClient.Do`: a transport failure, or a response with a
status code and a body. -/
inductive HttpDoResult : Type where
  | failure
  | success (statusCode : Nat) (body : AuthzBody)

/-- Result of one `Authorize` call: a hard error with no verdict, the
denied verdict `api.UnauthenticatedResponse()`, or the allowed verdict
`api.AuthorizedResponse()` carrying the injected `OkResponse.Headers`. -/
inductive AuthorizeResult : Type where
  | err (e : AuthError)
  | unauthenticated
  | authorized (headers : List (String × String))
  deriving DecidableEq, Repr

/-- `Authorize` from impl.go.  `httpDo` is the network oracle standing
for `httpClient.Do` applied to the GET request carrying exactly the
forwarded headers.  The request id is extracted only to tag the logger
and does not flow further. -/
def Authorize (c : RemoteAuthService) (inboundHeaders : List (String × String))
    (httpDo : List (String × String) → HttpDoResult) : AuthorizeResult :=
  let _requestId := extractRequestId c inboundHeaders
  let request := forwardAllowedHeaders c inboundHeaders
  match httpDo request with
  | .failure => .err .transportError
  | .success statusCode body =>
    if statusCode ≠ 200 then .unauthenticated
    else
      match extractResponseHeaders body c.AttributesToHeadersMap with
      | .error e => .err e
      | .ok responseHeaders => .authorized responseHeaders

/-- The older `GetAuthService` variant (src/unnamed/part_000): its
`Config` has no `RequestIdHeader`, and it builds `attributesToHeaderMap`
by inverting `config.ResponseHeaders` (header→attribute becomes
attribute→header). -/
def GetAuthServiceV0 (authUrl : String) (forwardRequestHeaders : List String)
    (responseHeaders : List (String × String)) : RemoteAuthService :=
  { AuthUrl := authUrl
    ForwardRequestHeaders := forwardRequestHeaders.map fun v => (v, true)
    AttributesToHeadersMap := responseHeaders.map fun p => (p.2, p.1)
    RequestIdHeader := "" }

/-- The inversion the spec describes for the configuration surface:
swap every (outbound-header-name, remote-attribute-name) pair to
(remote-attribute-name, outbound-header-name).  Modelled from the spec's
words for comparison with what `GetAuthService` actually does. -/
def invertResponseHeaders (m : List (String × String)) : List (String × String) :=
  m.map fun p => (p.2, p.1)

/-- A value whose `reflect.Kind` falls in one of the scalar branches of
`stringifyValue` (bool, the handled int/uint kinds, float, string). -/
def isSupportedScalar : GoValue → Bool
  | .bool _ => true
  | .int _ => true
  | .uint _ => true
  | .float _ => true
  | .str _ => true
  | _ => false

theorem stringifySlice_eq_filterMap (xs : List GoValue) :
    stringifySlice xs = xs.filterMap stringifyValue := by
  induction xs with
  | nil => rfl
  | cons x xs ih =>
    cases h : stringifyValue x <;>
      simp [stringifySlice, List.filterMap_cons, h, ih]

theorem stringifyValue_slice_eq (xs : List GoValue) :
    stringifyValue (.slice xs)
      = some (String.intercalate "," (xs.filterMap stringifyValue)) := by
  rw [stringifyValue, stringifySlice_eq_filterMap]

theorem stringifyValue_isSome_of_scalar (v : GoValue)
    (h : isSupportedScalar v = true) : (stringifyValue v).isSome = true := by
  cases v <;> simp_all [isSupportedScalar, stringifyValue]

theorem extractHeaders_eq_filterMap (data : List (String × GoValue))
    (m : List (String × String)) :
    extractHeaders data m
      = m.filterMap fun p =>
          ((assocLookup data p.1).bind stringifyValue).map fun s => (p.2, s) := by
  induction m with
  | nil => rfl
  | cons p rest ih =>
    obtain ⟨attrName, header⟩ := p
    cases hl : assocLookup data attrName with
    | none => simp [extractHeaders, hl, List.filterMap_cons, ih]
    | some raw =>
      cases hs : stringifyValue raw <;>
        simp [extractHeaders, hl, hs, List.filterMap_cons, ih]

theorem mem_forwardAllowedHeaders_fromList (fwd : List String)
    (inbound : List (String × String)) (k v : String) :
    (k, v) ∈ fwd.filterMap
        (fun key => (assocLookup inbound key).map fun value => (key, value)) ↔
      k ∈ fwd ∧ assocLookup inbound k = some v := by
  simp only [List.mem_filterMap, Option.map_eq_some', Prod.mk.injEq]
  constructor
  · rintro ⟨a, ha, value, hval, rfl, rfl⟩
    exact ⟨ha, hval⟩
  · rintro ⟨hk, hv⟩
    exact ⟨k, hk, v, hv, rfl, rfl⟩

theorem forwardAllowedHeaders_getAuthService (config : Config)
    (inbound : List (String × String)) :
    forwardAllowedHeaders (GetAuthService config) inbound
      = config.ForwardRequestHeaders.filterMap
          fun key => (assocLookup inbound key).map fun value => (key, value) := by
  simp only [forwardAllowedHeaders, GetAuthService, List.filterMap_map]
  congr 1

example : stringifyValue (.slice [.str "admin", .str "user"]) = some "admin,user" := by decide
example : stringifyValue (.slice [.str "a", .null, .str "b"]) = some "a,b" := by decide
example : stringifyValue (.slice []) = some "" := by decide
example : stringifyValue (.object [("k", .str "v")]) = none := by decide
example : stringifyValue .null = none := by decide
example : stringifyValue (.int (-5)) = some "-5" := by decide
example :
    extractHeaders
      [("userid", .str "123456"), ("isserver", .bool true),
        ("roles", .slice [.str "admin", .str "user"])]
      [("userid", "x-auth-subject-id"), ("isserver", "x-auth-server-access"),
        ("roles", "x-auth-roles"), ("not-present", "x-auth-not-present")]
      = [("x-auth-subject-id", "123456"), ("x-auth-server-access", "true"),
          ("x-auth-roles", "admin,user")] := by decide

/-- Claim C1: whenever `httpClient.Do` succeeds and the remote status code
is anything other than 200, `Authorize` returns the denied verdict
`api.UnauthenticatedResponse()` with no error; the response body (here
universally quantified, including a malformed one) is never read or
decoded on this path. -/
theorem Authorize_non200_denies (c : RemoteAuthService)
    (inbound : List (String × String))
    (httpDo : List (String × String) → HttpDoResult)
    (statusCode : Nat) (body : AuthzBody)
    (hdo : httpDo (forwardAllowedHeaders c inbound) = .success statusCode body)
    (hs : statusCode ≠ 200) :
    Authorize c inbound httpDo = .unauthenticated := by
  simp [Authorize, hdo, hs]

/-- Witness for C1 at a concrete denial: status 403 with a body that is
not even valid JSON still yields the denied verdict. -/
theorem Authorize_non200_denies_witness :
    Authorize ⟨"http://auth.example", [], [], ""⟩ []
      (fun _ => .success 403 .malformed) = .unauthenticated :=
  Authorize_non200_denies _ _ _ 403 .malformed rfl (by decide)

/-- Claim C2: on a 200 response the body is decoded as a JSON object; a
decode failure makes `Authorize` return the hard `DecodeError` with no
verdict, and a decode success yields the allowed verdict carrying exactly
the headers produced by the extraction loop over the decoded body and the
attribute→header map. -/
theorem Authorize_200_decodes (c : RemoteAuthService)
    (inbound : List (String × String))
    (httpDo : List (String × String) → HttpDoResult) (body : AuthzBody)
    (hdo : httpDo (forwardAllowedHeaders c inbound) = .success 200 body) :
    (body = .malformed → Authorize c inbound httpDo = .err .decodeError) ∧
    (∀ data, body = .object data →
      Authorize c inbound httpDo
        = .authorized (extractHeaders data c.AttributesToHeadersMap)) := by
  constructor
  · rintro rfl
    simp [Authorize, hdo, extractResponseHeaders]
  · rintro data rfl
    simp [Authorize, hdo, extractResponseHeaders]

/-- Witness for C2 on both branches: a malformed 200 body fails with
`DecodeError`, and a well-formed one yields the allowed verdict with the
extracted headers. -/
theorem Authorize_200_decodes_witness :
    Authorize ⟨"http://auth.example", [], [("userid", "x-auth-subject-id")], ""⟩
        [] (fun _ => .success 200 .malformed) = .err .decodeError ∧
    Authorize ⟨"http://auth.example", [], [("userid", "x-auth-subject-id")], ""⟩
        [] (fun _ => .success 200 (.object [("userid", .str "123456")]))
      = .authorized [("x-auth-subject-id", "123456")] :=
  ⟨(Authorize_200_decodes _ _ _ _ rfl).1 rfl,
    ((Authorize_200_decodes _ _ _ _ rfl).2 [("userid", .str "123456")] rfl).trans
      (by decide)⟩

/-- Counterexample to claim C3: an array containing an unsupported
element (`null`) is not itself unsupported — `stringifyValue` silently
drops the unsupported element and joins the rest. -/
theorem stringifyValue_slice_drops_unsupported :
    stringifyValue (.slice [.str "a", .null, .str "b"]) ≠ none ∧
    stringifyValue (.slice [.str "a", .null, .str "b"]) = some "a,b" := by
  constructor <;> decide

/-- Claim C3 as amended: for every array value `stringifyValue` succeeds,
returning the comma-join of the stringifications of exactly those
elements that are supported, in order; unsupported elements are silently
dropped rather than poisoning the array. -/
theorem stringifyValue_slice_supported (xs : List GoValue) :
    stringifyValue (.slice xs)
      = some (String.intercalate "," (xs.filterMap stringifyValue)) :=
  stringifyValue_slice_eq xs

/-- Claim C4: per mapping entry `(attribute, headerName)`, the extraction
loop emits nothing when the attribute is absent from the body or its
value stringifies to unsupported (no error either way — the error channel
exists only at JSON decoding), and emits exactly
`(headerName, stringify(body[attribute]))` when the value is supported;
the spec's scenario-A body and mapping produce exactly the three headers
`x-auth-subject-id=123456`, `x-auth-server-access=true`,
`x-auth-roles=admin,user` and none for `not-present`. -/
theorem extractHeaders_per_entry :
    (∀ (data : List (String × GoValue)) (m : List (String × String)),
      extractHeaders data m
        = m.filterMap fun p =>
            ((assocLookup data p.1).bind stringifyValue).map fun s => (p.2, s)) ∧
    extractHeaders
        [("userid", .str "123456"), ("isserver", .bool true),
          ("roles", .slice [.str "admin", .str "user"])]
        [("userid", "x-auth-subject-id"), ("isserver", "x-auth-server-access"),
          ("roles", "x-auth-roles"), ("not-present", "x-auth-not-present")]
      = [("x-auth-subject-id", "123456"), ("x-auth-server-access", "true"),
          ("x-auth-roles", "admin,user")] :=
  ⟨extractHeaders_eq_filterMap, by decide⟩

/-- Claim C5: a header is attached to the outbound request iff its name
is in the configured allow-list (case-sensitive match) and it is present
inbound; the forwarded name set is contained in the allow-list, with
equality exactly when every allow-listed name is present inbound; an
empty allow-list forwards nothing. -/
theorem forwardAllowedHeaders_allowlist (config : Config)
    (inbound : List (String × String)) :
    (∀ k v, (k, v) ∈ forwardAllowedHeaders (GetAuthService config) inbound ↔
      (k ∈ config.ForwardRequestHeaders ∧ assocLookup inbound k = some v)) ∧
    (∀ k, k ∈ (forwardAllowedHeaders (GetAuthService config) inbound).map Prod.fst →
      k ∈ config.ForwardRequestHeaders) ∧
    ((∀ k, k ∈ (forwardAllowedHeaders (GetAuthService config) inbound).map Prod.fst ↔
        k ∈ config.ForwardRequestHeaders) ↔
      (∀ k ∈ config.ForwardRequestHeaders, (assocLookup inbound k).isSome = true)) ∧
    (config.ForwardRequestHeaders = [] →
      forwardAllowedHeaders (GetAuthService config) inbound = []) := by
  have hmem : ∀ k v,
      (k, v) ∈ forwardAllowedHeaders (GetAuthService config) inbound ↔
        (k ∈ config.ForwardRequestHeaders ∧ assocLookup inbound k = some v) := by
    intro k v
    rw [forwardAllowedHeaders_getAuthService]
    exact mem_forwardAllowedHeaders_fromList _ _ k v
  have hsub : ∀ k,
      k ∈ (forwardAllowedHeaders (GetAuthService config) inbound).map Prod.fst →
        k ∈ config.ForwardRequestHeaders := by
    intro k hk
    obtain ⟨⟨k', v⟩, hp, rfl⟩ := List.mem_map.mp hk
    exact ((hmem k' v).mp hp).1
  refine ⟨hmem, hsub, ⟨?_, ?_⟩, ?_⟩
  · intro hiff k hk
    have hk' := (hiff k).mpr hk
    obtain ⟨⟨k', v⟩, hp, rfl⟩ := List.mem_map.mp hk'
    rw [((hmem k' v).mp hp).2]
    rfl
  · intro hall k
    refine ⟨hsub k, fun hk => ?_⟩
    obtain ⟨v, hv⟩ := Option.isSome_iff_exists.mp (hall k hk)
    exact List.mem_map.mpr ⟨(k, v), (hmem k v).mpr ⟨hk, hv⟩, rfl⟩
  · intro hnil
    rw [forwardAllowedHeaders_getAuthService, hnil]
    rfl

/-- Witness for C5: with allow-list `[h1, h2]` and inbound headers
`h1=v1, x=y`, the pair `(h1, v1)` is forwarded. -/
theorem forwardAllowedHeaders_allowlist_witness :
    ("h1", "v1") ∈ forwardAllowedHeaders
        (GetAuthService ⟨"http://auth.example", ["h1", "h2"], "", []⟩)
        [("h1", "v1"), ("x", "y")] :=
  ((forwardAllowedHeaders_allowlist _ _).1 "h1" "v1").mpr ⟨by decide, by decide⟩

/-- Counterexample to claim C6: the current `GetAuthService` takes
`config.ResponseHeaders` as the internal `AttributesToHeadersMap`
unchanged — for the one-entry config mapping `x-auth-subject-id` to
`userid` the internal map is that same pair, not its inversion. -/
theorem GetAuthService_no_inversion :
    (GetAuthService ⟨"http://auth.example", [], "",
        [("x-auth-subject-id", "userid")]⟩).AttributesToHeadersMap
      = [("x-auth-subject-id", "userid")] ∧
    invertResponseHeaders [("x-auth-subject-id", "userid")]
      = [("userid", "x-auth-subject-id")] ∧
    (GetAuthService ⟨"http://auth.example", [], "",
        [("x-auth-subject-id", "userid")]⟩).AttributesToHeadersMap
      ≠ invertResponseHeaders [("x-auth-subject-id", "userid")] := by
  exact ⟨rfl, rfl, by decide⟩

/-- Claim C6 as amended: the current `GetAuthService` passes
`config.ResponseHeaders` through unchanged as the internal lookup map, so
the config surface must already carry direction
remote-attribute-name → outbound-header-name; only the older variant
(src/unnamed/part_000) performs the inversion the spec describes. -/
theorem GetAuthService_responseHeaders_passthrough (config : Config)
    (authUrl : String) (fwd : List String)
    (responseHeaders : List (String × String)) :
    (GetAuthService config).AttributesToHeadersMap = config.ResponseHeaders ∧
    (GetAuthServiceV0 authUrl fwd responseHeaders).AttributesToHeadersMap
      = invertResponseHeaders responseHeaders :=
  ⟨rfl, rfl⟩

/-- Claim C7: every supported scalar (bool, int, uint, float, string)
stringifies to some string; stringification is deterministic (a pure
function of the value); and on an array of supported scalars the result
is the comma-join of all the element stringifications in original order
(none dropped: the filtered list keeps full length). -/
theorem stringifyValue_scalar_props :
    (∀ v, isSupportedScalar v = true → (stringifyValue v).isSome = true) ∧
    (∀ v w : GoValue, v = w → stringifyValue v = stringifyValue w) ∧
    (∀ xs : List GoValue, (∀ x ∈ xs, isSupportedScalar x = true) →
      stringifyValue (.slice xs)
          = some (String.intercalate "," (xs.filterMap stringifyValue)) ∧
      (xs.filterMap stringifyValue).length = xs.length) := by
  refine ⟨stringifyValue_isSome_of_scalar, fun v w h => by rw [h], ?_⟩
  intro xs hxs
  refine ⟨stringifyValue_slice_eq xs, ?_⟩
  induction xs with
  | nil => rfl
  | cons x rest ih =>
    have hx := stringifyValue_isSome_of_scalar x (hxs x (List.mem_cons_self x rest))
    obtain ⟨s, hs⟩ := Option.isSome_iff_exists.mp hx
    simp [List.filterMap_cons, hs,
      ih (fun y hy => hxs y (List.mem_cons_of_mem x hy))]

/-- Witness for C7: `true` stringifies, and the two-scalar array
`[admin, user]` joins to its full two-element stringification. -/
theorem stringifyValue_scalar_props_witness :
    (stringifyValue (.bool true)).isSome = true ∧
    stringifyValue (.slice [.str "admin", .str "user"])
        = some (String.intercalate ","
            ([GoValue.str "admin", GoValue.str "user"].filterMap stringifyValue)) ∧
    ([GoValue.str "admin", GoValue.str "user"].filterMap stringifyValue).length = 2 :=
  ⟨stringifyValue_scalar_props.1 _ rfl,
    (stringifyValue_scalar_props.2.2 [.str "admin", .str "user"] (by decide)).1,
    ((stringifyValue_scalar_props.2.2 [.str "admin", .str "user"] (by decide)).2).trans
      (by decide)⟩

/-- Claim C8: a JSON object and the null value stringify to unsupported
(`none`), not to a string; `stringifyValue` is a total Lean function, so
no panic is possible. -/
theorem stringifyValue_object_null_unsupported :
    (∀ fields, stringifyValue (.object fields) = none) ∧
    stringifyValue .null = none :=
  ⟨fun _ => rfl, rfl⟩

/-- Counterexample to claim C9: when the correlation header name is also
in the forward allow-list, changing only its presence in the inbound
request changes the outbound request and hence the verdict — here the
remote allows an empty forwarded set and denies a non-empty one, so the
two runs (identical but for the inbound `x-request-id` header) end in
different verdicts. -/
theorem Authorize_requestId_can_affect_when_forwarded :
    Authorize ⟨"http://auth.example", [("x-request-id", true)], [], "x-request-id"⟩
        [("x-request-id", "abc")]
        (fun req => if req.isEmpty then .success 200 (.object []) else .success 403 .malformed)
      ≠
    Authorize ⟨"http://auth.example", [("x-request-id", true)], [], "x-request-id"⟩
        []
        (fun req => if req.isEmpty then .success 200 (.object []) else .success 403 .malformed) := by
  decide

/-- Claim C9 as amended: the correlation id never affects the verdict:
two runs differing only in the `RequestIdHeader` configuration give
identical results, and two runs differing only in the inbound correlation
header give identical results provided that header name is not in the
forward allow-list (otherwise its change reaches the remote through
forwarding, not through the correlation id). -/
theorem Authorize_requestId_no_effect (authUrl : String)
    (fwdHeaders : List (String × Bool)) (attrsMap : List (String × String))
    (rid1 rid2 : String) (inbound : List (String × String))
    (httpDo : List (String × String) → HttpDoResult) :
    (Authorize ⟨authUrl, fwdHeaders, attrsMap, rid1⟩ inbound httpDo
      = Authorize ⟨authUrl, fwdHeaders, attrsMap, rid2⟩ inbound httpDo) ∧
    (∀ (c : RemoteAuthService) (inbound1 inbound2 : List (String × String)),
      (∀ k, k ≠ c.RequestIdHeader → assocLookup inbound1 k = assocLookup inbound2 k) →
      c.RequestIdHeader ∉ c.ForwardRequestHeaders.map Prod.fst →
      Authorize c inbound1 httpDo = Authorize c inbound2 httpDo) := by
  constructor
  · rfl
  · intro c inbound1 inbound2 hagree hnotfwd
    have hfwd : forwardAllowedHeaders c inbound1 = forwardAllowedHeaders c inbound2 := by
      unfold forwardAllowedHeaders
      apply List.filterMap_congr
      intro p hp
      have hne : p.1 ≠ c.RequestIdHeader := by
        intro heq
        exact hnotfwd (List.mem_map.mpr ⟨p, hp, heq⟩)
      rw [hagree p.1 hne]
    simp only [Authorize]
    rw [hfwd]

/-- Witness for C9's amended statement: dropping the inbound
`x-request-id` header leaves the verdict unchanged when that header is
not allow-listed for forwarding. -/
theorem Authorize_requestId_no_effect_witness :
    Authorize ⟨"http://auth.example", [("a", true)], [], "x-request-id"⟩
        [("x-request-id", "1"), ("a", "v")] (fun _ => .success 403 .malformed)
      = Authorize ⟨"http://auth.example", [("a", true)], [], "x-request-id"⟩
        [("a", "v")] (fun _ => .success 403 .malformed) :=
  (Authorize_requestId_no_effect "http://auth.example" [("a", true)] [] "" "" []
      (fun _ => .success 403 .malformed)).2
    ⟨"http://auth.example", [("a", true)], [], "x-request-id"⟩
    [("x-request-id", "1"), ("a", "v")] [("a", "v")]
    (fun k hk => by simp [assocLookup, Ne.symm hk])
    (by decide)

/-- Claim C10: the empty array stringifies to the empty string (a
supported value), so an attribute mapped to an empty array produces a
header with an empty value. -/
theorem extractHeaders_empty_array (data : List (String × GoValue))
    (m : List (String × String)) (attrName header : String)
    (hmem : (attrName, header) ∈ m)
    (hlook : assocLookup data attrName = some (.slice [])) :
    stringifyValue (.slice []) = some "" ∧
    (header, "") ∈ extractHeaders data m := by
  refine ⟨rfl, ?_⟩
  rw [extractHeaders_eq_filterMap]
  refine List.mem_filterMap.mpr ⟨(attrName, header), hmem, ?_⟩
  rw [hlook]
  rfl

/-- Witness for C10: the body field `roles = []` yields the header
`x-auth-roles` with empty value. -/
theorem extractHeaders_empty_array_witness :
    stringifyValue (.slice []) = some "" ∧
    ("x-auth-roles", "") ∈ extractHeaders [("roles", GoValue.slice [])]
      [("roles", "x-auth-roles")] :=
  extractHeaders_empty_array [("roles", GoValue.slice [])]
    [("roles", "x-auth-roles")] "roles" "x-auth-roles" (by simp) rfl
